import Mathlib

/-!
Shallow embedding of the bounded lock-free ring-buffer queue from
`src/include/queue.hpp` (namespace `t2`, class `queue<T>`), specialised to
sequential executions: one operation runs to completion at a time, so every
atomic load observes the value left by the previous operation, a
`compare_exchange_weak` whose expected value was just loaded succeeds, and a
re-load of a slot lap yields the value loaded a moment before.

Machine integers are modelled as `Nat` with explicit reductions: 16-bit
quantities are truncated with `% 65536`, 32-bit quantities with
`% 4294967296`.  The C++ cast `(int16_t)(lap - elem_lap)` is modelled by
`sub16`, which computes the two's-complement value of the 16-bit difference
as an `Int`.

The producer-side selection `select_4_write` contains a `while (true)` loop;
in a sequential execution an iteration that neither returns nor changes any
state would repeat verbatim forever, so the loop is modelled as a single
iteration whose fall-through ("retry") paths return `none` (nontermination).
The consumer-side selection `select_4_read` has no loop in the source and is
modelled as the total function it is.
-/

namespace T2

/-- Result states of the fallible operations (`t2::State`). -/
inductive State where
  | SUCCESS
  | EMPTY
  | FULL
  | CLOSED
  deriving DecidableEq, Repr

/-- One ring slot (`queue<T>::elem`): a 16-bit lap counter and a value cell. -/
structure elem (α : Type) where
  lap : Nat
  value : α
  deriving DecidableEq, Repr

instance [Inhabited α] : Inhabited (elem α) := ⟨⟨0, default⟩⟩

/-- The queue state: capacity `cap_` (a `uint16_t`), ring buffer `buf_`,
advisory length `size_` (`uint32_t`), packed send cursor `sendX_` and packed
recv cursor `recvX_` (both `uint32_t`: low 16 bits position, high 16 bits
lap; bit 31 of `sendX_` is the closed flag). -/
structure queue (α : Type) where
  cap_ : Nat
  buf_ : List (elem α)
  size_ : Nat
  sendX_ : Nat
  recvX_ : Nat
  deriving DecidableEq, Repr

/-- `kMask16 = 1 << 15`. -/
def kMask16 : Nat := 1 <<< 15

/-- `kMask32 = 1 << 31`. -/
def kMask32 : Nat := 1 <<< 31

/-- Two's-complement reading of the low 16 bits of `n`, as an integer. -/
def toInt16 (n : Nat) : Int :=
  if n % 65536 < 32768 then (n % 65536 : Int) else (n % 65536 : Int) - 65536

/-- The C++ expression `(int16_t)(a - b)` for 16-bit operands `a`, `b`. -/
def sub16 (a b : Nat) : Int :=
  toInt16 (a % 65536 + 65536 - b % 65536)

/-- Fresh queue state as left by the constructor with capacity `cap`:
all slot laps `0`, `size_ = 0`, `sendX_ = 0`, `recvX_ = 1 << 16`. -/
def fresh (α : Type) [Inhabited α] (cap : Nat) : queue α :=
  ⟨cap, List.replicate cap ⟨0, default⟩, 0, 0, 1 <<< 16⟩

/-- The constructor `queue::queue(uint16_t cap)`: it `assert`s `cap > 0`
(modelled as `none` on violation) and otherwise allocates `cap` slots. -/
def construct (α : Type) [Inhabited α] (cap : Nat) : Option (queue α) :=
  if 0 < cap then some (fresh α cap) else none

/-- `queue::select_4_read`, sequential embedding.  Returns the claimed slot
index and its lap on success together with the updated state.  The source
has no loop here: the two commented "retry" situations fall through to the
final `return ... EMPTY` statement (marked `// Fix lint.` in the source).
The re-load of the slot lap in the middle branch is modelled by the value
already loaded, which is what a sequential execution observes. -/
def select_4_read [Inhabited α] (q : queue α) : Option Nat × Nat × State × queue α :=
  let pos := q.recvX_ % 65536
  let lap := (q.recvX_ >>> 16) % 65536
  let elem_lap := (q.buf_.getD pos default).lap
  if lap = elem_lap then
    let recvX' := if pos + 1 < q.cap_
      then (q.recvX_ + 1) % 4294967296
      else ((lap + 2) <<< 16) % 4294967296
    (some pos, elem_lap, State.SUCCESS, { q with recvX_ := recvX' })
  else if 0 < sub16 lap elem_lap then
    if elem_lap < lap then
      (none, 0, State.EMPTY, q)
    else
      (none, 0, State.EMPTY, q)
  else
    (none, 0, State.EMPTY, q)

/-- `queue::select_4_write`, sequential embedding of the CAS loop.  The
`compare_exchange_weak` succeeds because `x` was loaded from `sendX_` by
this same operation and nothing else ran in between; an iteration that
falls through to the bottom of the loop would re-read identical state and
repeat forever, so those paths yield `none`. -/
def select_4_write [Inhabited α] (q : queue α) :
    Option (Option Nat × Nat × State × queue α) :=
  let x := q.sendX_
  let lap := (x >>> 16) % 65536
  if kMask16 ≤ lap then
    some (none, 0, State.CLOSED, q)
  else
    let pos := x % 65536
    let elem_lap := (q.buf_.getD pos default).lap
    if lap = elem_lap then
      let new_x := if pos + 1 < q.cap_
        then (x + 1) % 4294967296
        else ((lap + 2) <<< 16) % 4294967296
      some (some pos, elem_lap, State.SUCCESS, { q with sendX_ := new_x })
    else if 0 < sub16 lap elem_lap then
      if elem_lap < lap then
        some (none, 0, State.FULL, q)
      else
        none
    else
      none

/-- `queue::try_push` (both the copy and the move overload store `val` into
the claimed slot, publish `elem_lap + 1` as the slot lap, and bump `size_`;
the value argument is consumed only on the `SUCCESS` path). -/
def try_push [Inhabited α] (val : α) (q : queue α) : Option (State × queue α) :=
  match select_4_write q with
  | none => none
  | some (sel, elem_lap, st, q') =>
    match sel, st with
    | some pos, State.SUCCESS =>
      some (State.SUCCESS,
        { q' with
            buf_ := q'.buf_.set pos ⟨(elem_lap + 1) % 65536, val⟩,
            size_ := (q'.size_ + 1) % 4294967296 })
    | _, _ => some (st, q')

/-- `queue::try_pop`.  On success the value is moved out, `elem_lap + 1` is
published as the slot lap and `size_` is decremented (`fetch_add(-1)` on a
`uint32_t` adds `2^32 - 1` modulo `2^32`); on failure the tuple carries a
default-constructed value `T()` and the state is untouched.  The moved-from
value cell is modelled as retaining its contents. -/
def try_pop [Inhabited α] (q : queue α) : α × State × queue α :=
  match select_4_read q with
  | (some pos, elem_lap, State.SUCCESS, q') =>
    let out := (q'.buf_.getD pos default).value
    (out, State.SUCCESS,
      { q' with
          buf_ := q'.buf_.set pos ⟨(elem_lap + 1) % 65536, out⟩,
          size_ := (q'.size_ + 4294967295) % 4294967296 })
  | (_, _, st, q') => (default, st, q')

/-- `queue::try_peek`: runs the consumer-side selection and returns a borrow
of the selected value (modelled as a copy), without touching the slot lap or
`size_`.  Note that the selection itself advances `recvX_` on success. -/
def try_peek [Inhabited α] (q : queue α) : Option α × queue α :=
  match select_4_read q with
  | (some pos, _, State.SUCCESS, q') =>
    (some ((q'.buf_.getD pos default).value), q')
  | (_, _, _, q') => (none, q')

/-- `queue::close`: sets bit 31 of `sendX_` via a CAS loop that succeeds
sequentially on the first attempt. -/
def close (q : queue α) : queue α :=
  { q with sendX_ := q.sendX_ ||| kMask32 }

/-- `queue::len`. -/
def len (q : queue α) : Nat := q.size_

/-- `queue::is_close`. -/
def is_close (q : queue α) : Bool :=
  (q.sendX_ &&& kMask32) != 0

/-- A queue operation, for executing finite sequences of calls. -/
inductive Op (α : Type) where
  | push (v : α)
  | pop
  | peek
  | close
  deriving DecidableEq, Repr

/-- The observable outcome of one operation. -/
inductive Res (α : Type) where
  | pushR (st : State)
  | popR (v : α) (st : State)
  | peekR (o : Option α)
  | closeR
  deriving DecidableEq, Repr

/-- Execute one operation; `none` means the operation never returns. -/
def step [Inhabited α] (q : queue α) : Op α → Option (Res α × queue α)
  | Op.push v =>
    match try_push v q with
    | none => none
    | some (st, q') => some (Res.pushR st, q')
  | Op.pop => some (Res.popR (try_pop q).1 (try_pop q).2.1, (try_pop q).2.2)
  | Op.peek => some (Res.peekR (try_peek q).1, (try_peek q).2)
  | Op.close => some (Res.closeR, close q)

/-- Execute a sequence of operations, collecting the outcomes. -/
def run [Inhabited α] (q : queue α) : List (Op α) → Option (List (Res α) × queue α)
  | [] => some ([], q)
  | op :: ops =>
    match step q op with
    | none => none
    | some (r, q') =>
      match run q' ops with
      | none => none
      | some (rs, q'') => some (r :: rs, q'')

/-- Contribution of one outcome to the count of successful pushes. -/
def res_push_inc : Res α → Nat
  | Res.pushR State.SUCCESS => 1
  | _ => 0

/-- Contribution of one outcome to the count of successful pops. -/
def res_pop_inc : Res α → Nat
  | Res.popR _ State.SUCCESS => 1
  | _ => 0

/-- Number of pushes in a result list that returned `SUCCESS`. -/
def pushSucc (rs : List (Res α)) : Nat :=
  (rs.map res_push_inc).sum

/-- Number of pops in a result list that returned `SUCCESS`. -/
def popSucc (rs : List (Res α)) : Nat :=
  (rs.map res_pop_inc).sum

/-- Number of slots whose lap is odd, i.e. that are readable-but-unread. -/
def oddCount (q : queue α) : Nat :=
  q.buf_.countP (fun e => e.lap % 2 == 1)

/-- The state invariant maintained by every operation from a fresh queue:
the buffer has `cap_` slots, the capacity is a positive `uint16_t` value,
the cursors are 32-bit, the send lap is even and the recv lap is odd (the
closed bit does not disturb parity), and both cursor positions address the
buffer. -/
def Inv (q : queue α) : Prop :=
  q.buf_.length = q.cap_ ∧ 0 < q.cap_ ∧ q.cap_ ≤ 65535 ∧
  q.sendX_ < 4294967296 ∧ q.recvX_ < 4294967296 ∧
  q.sendX_ / 65536 % 2 = 0 ∧ q.recvX_ / 65536 % 2 = 1 ∧
  q.sendX_ % 65536 < q.cap_ ∧ q.recvX_ % 65536 < q.cap_

/-- The canonical state of a capacity-1 queue that has completed `m`
(sequential) push/pop half-cycles: both laps `m`, send cursor on lap `m`,
recv cursor on lap `m + 1`, empty. -/
def canon1 (m : Nat) : queue Nat :=
  ⟨1, [⟨m, 0⟩], 0, m * 65536, (m + 1) * 65536⟩

/-- The canonical state of a capacity-2 queue after `m` laps: both slots
on lap `m`, send cursor at position 0 lap `m`, recv cursor at position 0
lap `m + 1`, empty. -/
def canon2 (m : Nat) : queue Nat :=
  ⟨2, [⟨m, 0⟩, ⟨m, 0⟩], 0, m * 65536, (m + 1) * 65536⟩

/-- `k` repetitions of push-then-pop, for driving a capacity-1 queue
through laps. -/
def cyc1N : Nat → List (Op Nat)
  | 0 => []
  | k + 1 => Op.push 0 :: Op.pop :: cyc1N k

/-- The outcomes of `cyc1N k` on an empty capacity-1 queue: every push and
every pop succeeds. -/
def res1N : Nat → List (Res Nat)
  | 0 => []
  | k + 1 => Res.pushR State.SUCCESS :: Res.popR 0 State.SUCCESS :: res1N k

/-- `k` repetitions of push-push-pop-pop, for driving a capacity-2 queue
through laps. -/
def cyc2N : Nat → List (Op Nat)
  | 0 => []
  | k + 1 => Op.push 0 :: Op.push 0 :: Op.pop :: Op.pop :: cyc2N k

/-- The outcomes of `cyc2N k` on an empty capacity-2 queue. -/
def res2N : Nat → List (Res Nat)
  | 0 => []
  | k + 1 => Res.pushR State.SUCCESS :: Res.pushR State.SUCCESS ::
      Res.popR 0 State.SUCCESS :: Res.popR 0 State.SUCCESS :: res2N k

/-- C1: on a queue of capacity 2, the call sequence push 10, push 20,
push 30, pop, push 30, pop, pop, pop returns SUCCESS, SUCCESS, FULL,
(10, SUCCESS), SUCCESS, (20, SUCCESS), (30, SUCCESS), (default, EMPTY). -/
theorem c1_sequence :
    (run (fresh Nat 2)
      [Op.push 10, Op.push 20, Op.push 30, Op.pop, Op.push 30,
       Op.pop, Op.pop, Op.pop]).map Prod.fst =
    some [Res.pushR State.SUCCESS, Res.pushR State.SUCCESS,
          Res.pushR State.FULL, Res.popR 10 State.SUCCESS,
          Res.pushR State.SUCCESS, Res.popR 20 State.SUCCESS,
          Res.popR 30 State.SUCCESS, Res.popR 0 State.EMPTY] := by
  decide

/-- The consumer-side selection either claims a slot with `SUCCESS`,
advancing only `recvX_`, or returns `EMPTY` with the queue unchanged. -/
theorem select_4_read_cases [Inhabited α] (q : queue α) :
    (∃ pos el r, select_4_read q =
        (some pos, el, State.SUCCESS, { q with recvX_ := r })) ∨
      select_4_read q = (none, 0, State.EMPTY, q) := by
  simp only [select_4_read]
  split_ifs
  all_goals first
    | exact Or.inl ⟨_, _, _, rfl⟩
    | exact Or.inr rfl

/-- The producer-side selection claims a slot with `SUCCESS`, advancing
only `sendX_`, or returns `CLOSED` or `FULL` with the queue unchanged, or
never returns. -/
theorem select_4_write_cases [Inhabited α] (q : queue α) :
    (∃ pos el x, select_4_write q =
        some (some pos, el, State.SUCCESS, { q with sendX_ := x })) ∨
      select_4_write q = some (none, 0, State.CLOSED, q) ∨
      select_4_write q = some (none, 0, State.FULL, q) ∨
      select_4_write q = none := by
  simp only [select_4_write]
  split_ifs
  all_goals first
    | exact Or.inl ⟨_, _, _, rfl⟩
    | exact Or.inr (Or.inl rfl)
    | exact Or.inr (Or.inr (Or.inl rfl))
    | exact Or.inr (Or.inr (Or.inr rfl))

/-- C2: refuted on the code — `try_peek` calls `select_4_read`, which
advances `recvX_` on success.  With `C = 3` after pushing 1, 2, 3, two
consecutive peeks return borrows of 1 and then 2 (not the same element),
and a pop performed immediately after a peek of 1 returns 2, not the
peeked element. -/
theorem c2_peek_advances :
    (run (fresh Nat 3)
      [Op.push 1, Op.push 2, Op.push 3, Op.peek, Op.peek]).map Prod.fst =
      some [Res.pushR State.SUCCESS, Res.pushR State.SUCCESS,
            Res.pushR State.SUCCESS, Res.peekR (some 1), Res.peekR (some 2)] ∧
    (run (fresh Nat 3)
      [Op.push 1, Op.push 2, Op.push 3, Op.peek, Op.pop]).map Prod.fst =
      some [Res.pushR State.SUCCESS, Res.pushR State.SUCCESS,
            Res.pushR State.SUCCESS, Res.peekR (some 1),
            Res.popR 2 State.SUCCESS] := by
  constructor
  · decide
  · decide

/-- C4: refuted on the code — `select_4_read` has no retry loop.  When the
slot lap is ahead of the cursor lap (signed difference negative) it falls
through to the final `return ... EMPTY` (commented `// Fix lint.`), and
when the signed difference is positive but the unsigned confirmation
`lap > elem_lap` fails it also returns `EMPTY`; the source comments and the
spec call both situations a retry. -/
theorem c4_read_returns_empty :
    select_4_read (⟨1, [⟨3, 0⟩], 0, 0, 65536⟩ : queue Nat) =
      (none, 0, State.EMPTY, (⟨1, [⟨3, 0⟩], 0, 0, 65536⟩ : queue Nat)) ∧
    select_4_read (⟨1, [⟨40000, 0⟩], 0, 0, 65536000⟩ : queue Nat) =
      (none, 0, State.EMPTY, (⟨1, [⟨40000, 0⟩], 0, 0, 65536000⟩ : queue Nat)) := by
  constructor
  · decide
  · decide

/-- C8: whenever `try_pop` fails it returns a default-constructed value and
leaves the queue untouched, and whenever `try_push` returns without
`SUCCESS` the queue is unchanged (the value argument is only consumed on
the `SUCCESS` path of the source). -/
theorem c8_failure_atomicity [Inhabited α] (q : queue α) (v : α) :
    ((try_pop q).2.1 = State.EMPTY →
      (try_pop q).1 = default ∧ (try_pop q).2.2 = q) ∧
    (∀ st q', try_push v q = some (st, q') → st ≠ State.SUCCESS → q' = q) := by
  constructor
  · intro hEmpty
    rcases select_4_read_cases q with ⟨pos, el, q', hsel⟩ | hsel
    · rw [try_pop, hsel] at hEmpty
      exact absurd hEmpty (by simp)
    · rw [try_pop, hsel]
      exact ⟨rfl, rfl⟩
  · intro st q' hpush hne
    rcases select_4_write_cases q with ⟨pos, el, q₁, hsel⟩ | hsel | hsel | hsel
    · rw [try_push, hsel] at hpush
      simp at hpush
      exact absurd hpush.1.symm hne
    · rw [try_push, hsel] at hpush
      simp at hpush
      exact hpush.2.symm
    · rw [try_push, hsel] at hpush
      simp at hpush
      exact hpush.2.symm
    · rw [try_push, hsel] at hpush
      exact absurd hpush (by simp)

/-- Witness for C8 at concrete inputs: popping an empty queue of capacity 2
yields the default value and leaves the state unchanged, and a `FULL` push
on a full queue of capacity 1 leaves the state unchanged. -/
theorem c8_failure_atomicity_wit :
    ((try_pop (fresh Nat 2)).1 = 0 ∧ (try_pop (fresh Nat 2)).2.2 = fresh Nat 2) ∧
    (⟨1, [⟨1, 5⟩], 1, 131072, 65536⟩ : queue Nat) =
      (⟨1, [⟨1, 5⟩], 1, 131072, 65536⟩ : queue Nat) :=
  ⟨(c8_failure_atomicity (fresh Nat 2) 0).1 (by decide),
   (c8_failure_atomicity (⟨1, [⟨1, 5⟩], 1, 131072, 65536⟩ : queue Nat) 9).2
     State.FULL (⟨1, [⟨1, 5⟩], 1, 131072, 65536⟩ : queue Nat)
     (by decide) (by decide)⟩

/-- C10: the constructor rejects capacity 0 through its `assert` and, for
every capacity from 1 to 65535 (the whole positive `uint16_t` range,
including values above the documented maximum 32767), succeeds and
allocates exactly that many slots. -/
theorem c10_construct_range (α : Type) [Inhabited α] (cap : Nat)
    (h1 : 1 ≤ cap) (h2 : cap ≤ 65535) :
    construct α 0 = none ∧
      construct α cap = some (fresh α cap) ∧
      (fresh α cap).buf_.length = cap := by
  have h0 : 0 < cap := h1
  exact ⟨by simp [construct], by rw [construct, if_pos h0], by simp [fresh]⟩

/-- Witness for C10 at capacity 40000, above the documented maximum. -/
theorem c10_construct_range_wit :
    construct Nat 0 = none ∧
      construct Nat 40000 = some (fresh Nat 40000) ∧
      (fresh Nat 40000).buf_.length = 40000 :=
  c10_construct_range Nat 40000 (by decide) (by decide)

/-- `kMask32` is the 32nd bit. -/
theorem kMask32_eq : kMask32 = 2 ^ 31 := by decide

/-- `kMask16` is `32768`. -/
theorem kMask16_eq : kMask16 = 32768 := by decide

/-- Masking with `kMask32` isolates bit 31. -/
theorem and_kMask32 (x : Nat) :
    x &&& kMask32 = if x.testBit 31 then kMask32 else 0 := by
  have hk : ∀ j, kMask32.testBit j = decide (31 = j) := fun j => by
    rw [kMask32_eq]; exact Nat.testBit_two_pow
  apply Nat.eq_of_testBit_eq
  intro i
  rw [Nat.testBit_and, hk]
  by_cases h31 : x.testBit 31 = true
  · rw [if_pos h31, hk]
    by_cases hi : 31 = i
    · subst hi
      rw [h31]
      simp
    · simp [hi]
  · rw [if_neg h31, Nat.zero_testBit]
    rw [Bool.not_eq_true] at h31
    by_cases hi : 31 = i
    · subst hi
      simp [h31]
    · simp [hi]

/-- `is_close` reads exactly bit 31 of the send cursor. -/
theorem is_close_testBit (q : queue α) :
    is_close q = q.sendX_.testBit 31 := by
  rw [is_close, and_kMask32]
  by_cases h : q.sendX_.testBit 31 = true
  · rw [if_pos h, h]
    decide
  · rw [if_neg h]
    rw [Bool.not_eq_true] at h
    rw [h]
    decide

/-- Bit 31 of the cursor word is bit 15 of the decoded 16-bit lap. -/
theorem testBit_31_lap (x : Nat) :
    x.testBit 31 = true ↔ 32768 ≤ (x >>> 16) % 65536 := by
  rw [Nat.testBit_to_div_mod, Nat.shiftRight_eq_div_pow]
  have hdiv : x / 2 ^ 31 = x / 2 ^ 16 / 32768 := by
    rw [Nat.div_div_eq_div_mul]
    norm_num
  rw [hdiv]
  constructor
  · intro h
    have h' : x / 2 ^ 16 / 32768 % 2 = 1 := by simpa using h
    omega
  · intro h
    have h' : x / 2 ^ 16 / 32768 % 2 = 1 := by omega
    simpa using h'

/-- Closing sets the closed flag. -/
theorem is_close_close (q : queue α) : is_close (close q) = true := by
  rw [close]
  rw [show is_close { q with sendX_ := q.sendX_ ||| kMask32 } =
        (q.sendX_ ||| kMask32).testBit 31 from is_close_testBit _]
  rw [kMask32_eq, Nat.testBit_lor, Nat.testBit_two_pow_self]
  simp

/-- On a queue whose closed flag is set, the producer-side selection
observes `lap >= kMask16` and reports `CLOSED` without moving anything. -/
theorem select_4_write_closed [Inhabited α] (q : queue α)
    (hc : is_close q = true) :
    select_4_write q = some (none, 0, State.CLOSED, q) := by
  have h31 : q.sendX_.testBit 31 = true := by
    rw [← is_close_testBit]; exact hc
  have hlap : 32768 ≤ (q.sendX_ >>> 16) % 65536 := (testBit_31_lap _).mp h31
  rw [select_4_write]
  rw [if_pos (by rw [kMask16_eq]; exact hlap)]

/-- On a closed queue, `try_push` returns `CLOSED` and changes nothing. -/
theorem try_push_closed [Inhabited α] (q : queue α) (v : α)
    (hc : is_close q = true) :
    try_push v q = some (State.CLOSED, q) := by
  rw [try_push, select_4_write_closed q hc]

/-- `try_pop` never touches the send cursor. -/
theorem try_pop_sendX [Inhabited α] (q : queue α) :
    (try_pop q).2.2.sendX_ = q.sendX_ := by
  rcases select_4_read_cases q with ⟨pos, el, r, hsel⟩ | hsel
  · rw [try_pop, hsel]
  · rw [try_pop, hsel]

/-- `try_peek` never touches the send cursor. -/
theorem try_peek_sendX [Inhabited α] (q : queue α) :
    (try_peek q).2.sendX_ = q.sendX_ := by
  rcases select_4_read_cases q with ⟨pos, el, r, hsel⟩ | hsel
  · rw [try_peek, hsel]
  · rw [try_peek, hsel]

/-- Splitting a successful execution of `op :: ops` into its head step and
its tail execution. -/
theorem run_cons [Inhabited α] (q : queue α) (op : Op α) (ops : List (Op α))
    (res : List (Res α)) (q' : queue α)
    (h : run q (op :: ops) = some (res, q')) :
    ∃ r q₁ rs, step q op = some (r, q₁) ∧ run q₁ ops = some (rs, q') ∧
      res = r :: rs := by
  rw [run] at h
  rcases hstep : step q op with _ | ⟨r, q₁⟩
  · rw [hstep] at h
    cases h
  · rw [hstep] at h
    dsimp only at h
    rcases hrun : run q₁ ops with _ | ⟨rs, q₂⟩
    · rw [hrun] at h
      cases h
    · rw [hrun] at h
      dsimp only at h
      cases h
      exact ⟨r, q₁, rs, rfl, hrun, rfl⟩

/-- Each single operation keeps a set closed flag set. -/
theorem step_preserves_close [Inhabited α] (q : queue α) (op : Op α)
    (r : Res α) (q' : queue α) (hc : is_close q = true)
    (h : step q op = some (r, q')) : is_close q' = true := by
  cases op with
  | push v =>
    rw [step, try_push_closed q v hc] at h
    cases h
    exact hc
  | pop =>
    rw [step] at h
    cases h
    rw [is_close_testBit, try_pop_sendX, ← is_close_testBit]
    exact hc
  | peek =>
    rw [step] at h
    cases h
    rw [is_close_testBit, try_peek_sendX, ← is_close_testBit]
    exact hc
  | close =>
    rw [step] at h
    cases h
    exact is_close_close q

/-- A set closed flag stays set along any execution. -/
theorem run_preserves_close [Inhabited α] (q : queue α) (ops : List (Op α))
    (res : List (Res α)) (q' : queue α) (hc : is_close q = true)
    (h : run q ops = some (res, q')) : is_close q' = true := by
  induction ops generalizing q res with
  | nil =>
    rw [run] at h
    cases h
    exact hc
  | cons op ops ih =>
    obtain ⟨r, q₁, rs, hstep, hrun, hres⟩ := run_cons q op ops res q' h
    exact ih q₁ rs (step_preserves_close q op r q₁ hc hstep) hrun

/-- `try_pop` commutes with `close`: popping a closed queue returns the same
value and status as popping it before closing, and the same state up to the
closed flag. -/
theorem try_pop_close [Inhabited α] (q : queue α) :
    try_pop (close q) =
      ((try_pop q).1, (try_pop q).2.1, close (try_pop q).2.2) := by
  simp only [try_pop, select_4_read, close]
  split_ifs <;> rfl

/-- C3: after `close()`, `is_close` answers true and stays true along every
subsequent execution, every `try_push` on a closed queue returns `CLOSED`
leaving the state unchanged, and `try_pop` behaves on the closed queue
exactly as it would on the unclosed one (same value, same status, same
state up to the closed flag), so the remaining elements drain to `EMPTY`
exactly as before closing. -/
theorem c3_close_behavior [Inhabited α] (q : queue α) :
    is_close (close q) = true ∧
    (∀ ops res q', run (close q) ops = some (res, q') → is_close q' = true) ∧
    (∀ v : α, is_close q = true → try_push v q = some (State.CLOSED, q)) ∧
    try_pop (close q) =
      ((try_pop q).1, (try_pop q).2.1, close (try_pop q).2.2) :=
  ⟨is_close_close q,
   fun ops res q' h =>
     run_preserves_close (close q) ops res q' (is_close_close q) h,
   fun v hc => try_push_closed q v hc,
   try_pop_close q⟩

/-- Witness for C3 on a concrete closed queue of capacity 1. -/
theorem c3_close_behavior_wit :
    is_close (close (fresh Nat 1)) = true ∧
    is_close (close (fresh Nat 1)) = true ∧
    try_push 9 (close (fresh Nat 1)) = some (State.CLOSED, close (fresh Nat 1)) ∧
    try_pop (close (fresh Nat 1)) =
      ((try_pop (fresh Nat 1)).1, (try_pop (fresh Nat 1)).2.1,
        close (try_pop (fresh Nat 1)).2.2) :=
  ⟨(c3_close_behavior (fresh Nat 1)).1,
   (c3_close_behavior (fresh Nat 1)).2.1 [Op.pop] [Res.popR 0 State.EMPTY]
     (close (fresh Nat 1)) (by decide),
   (c3_close_behavior (close (fresh Nat 1))).2.2.1 9 (by decide),
   (c3_close_behavior (fresh Nat 1)).2.2.2⟩

/-- Right shift by 16 is division by 65536. -/
theorem shiftR16 (x : Nat) : x >>> 16 = x / 65536 := by
  rw [Nat.shiftRight_eq_div_pow]

/-- Left shift by 16 is multiplication by 65536. -/
theorem shiftL16 (x : Nat) : x <<< 16 = x * 65536 := by
  rw [Nat.shiftLeft_eq]

/-- `pushSucc` over a cons. -/
theorem pushSucc_cons (r : Res α) (rs : List (Res α)) :
    pushSucc (r :: rs) = res_push_inc r + pushSucc rs := by
  simp [pushSucc]

/-- `popSucc` over a cons. -/
theorem popSucc_cons (r : Res α) (rs : List (Res α)) :
    popSucc (r :: rs) = res_pop_inc r + popSucc rs := by
  simp [popSucc]

/-- `try_push` preserves the invariant; exactly a successful push flips one
even slot lap to odd, increasing the odd-lap count by one. -/
theorem try_push_inv [Inhabited α] (q : queue α) (v : α) (st : State)
    (q' : queue α) (hInv : Inv q) (h : try_push v q = some (st, q')) :
    Inv q' ∧ oddCount q + res_push_inc (Res.pushR st : Res α) = oddCount q' := by
  obtain ⟨hlen, hcap, hcap65, hsx, hrx, hsp, hrp, hspos, hrpos⟩ := hInv
  have hplen : q.sendX_ % 65536 < q.buf_.length := by
    rw [hlen]; exact hspos
  have hg := List.getD_eq_getElem q.buf_ default hplen
  simp only [try_push, select_4_write, shiftR16, shiftL16, kMask16_eq] at h
  split_ifs at h with hClosed hEq hPos hSub hLt
  · -- closed flag set: CLOSED, no change
    dsimp only at h
    cases h
    exact ⟨⟨hlen, hcap, hcap65, hsx, hrx, hsp, hrp, hspos, hrpos⟩,
      by simp [res_push_inc]⟩
  · -- success, cursor position advances within the lap
    dsimp only at h
    cases h
    refine ⟨⟨?_, hcap, hcap65, ?_, hrx, ?_, hrp, ?_, hrpos⟩, ?_⟩
    · simpa using hlen
    · dsimp only
      omega
    · dsimp only
      omega
    · dsimp only
      omega
    · simp only [oddCount, res_push_inc]
      rw [List.countP_set _ _ _ _ hplen, ← hg]
      simp only [beq_iff_eq]
      rw [if_neg (by omega), if_pos (by omega)]
      omega
  · -- success, cursor wraps to the next lap
    dsimp only at h
    cases h
    refine ⟨⟨?_, hcap, hcap65, ?_, hrx, ?_, hrp, ?_, hrpos⟩, ?_⟩
    · simpa using hlen
    · dsimp only
      omega
    · dsimp only
      omega
    · dsimp only
      omega
    · simp only [oddCount, res_push_inc]
      rw [List.countP_set _ _ _ _ hplen, ← hg]
      simp only [beq_iff_eq]
      rw [if_neg (by omega), if_pos (by omega)]
      omega
  · -- full: no change
    dsimp only at h
    cases h
    exact ⟨⟨hlen, hcap, hcap65, hsx, hrx, hsp, hrp, hspos, hrpos⟩,
      by simp [res_push_inc]⟩

/-- `try_pop` preserves the invariant; exactly a successful pop flips one
odd slot lap back to even, decreasing the odd-lap count by one. -/
theorem try_pop_inv [Inhabited α] (q : queue α) (hInv : Inv q) :
    Inv (try_pop q).2.2 ∧
      oddCount q = oddCount (try_pop q).2.2 +
        res_pop_inc (Res.popR (try_pop q).1 (try_pop q).2.1) := by
  obtain ⟨hlen, hcap, hcap65, hsx, hrx, hsp, hrp, hspos, hrpos⟩ := hInv
  have hplen : q.recvX_ % 65536 < q.buf_.length := by
    rw [hlen]; exact hrpos
  have hg := List.getD_eq_getElem q.buf_ default hplen
  have hmem : q.buf_.getD (q.recvX_ % 65536) default ∈ q.buf_ := by
    rw [hg]; exact List.getElem_mem hplen
  simp only [try_pop, select_4_read, shiftR16, shiftL16]
  split_ifs with hEq hPos
  · -- success, cursor position advances within the lap
    have hone : 0 < q.buf_.countP (fun e => e.lap % 2 == 1) := by
      rw [List.countP_pos_iff]
      exact ⟨_, hmem, by simp only [beq_iff_eq]; omega⟩
    refine ⟨⟨?_, hcap, hcap65, hsx, ?_, hsp, ?_, hspos, ?_⟩, ?_⟩
    · simpa using hlen
    · dsimp only
      omega
    · dsimp only
      omega
    · dsimp only
      omega
    · simp only [oddCount, res_pop_inc]
      rw [List.countP_set _ _ _ _ hplen, ← hg]
      simp only [beq_iff_eq]
      rw [if_pos (by omega), if_neg (by omega)]
      omega
  · -- success, cursor wraps to the next lap
    have hone : 0 < q.buf_.countP (fun e => e.lap % 2 == 1) := by
      rw [List.countP_pos_iff]
      exact ⟨_, hmem, by simp only [beq_iff_eq]; omega⟩
    refine ⟨⟨?_, hcap, hcap65, hsx, ?_, hsp, ?_, hspos, ?_⟩, ?_⟩
    · simpa using hlen
    · dsimp only
      omega
    · dsimp only
      omega
    · dsimp only
      omega
    · simp only [oddCount, res_pop_inc]
      rw [List.countP_set _ _ _ _ hplen, ← hg]
      simp only [beq_iff_eq]
      rw [if_pos (by omega), if_neg (by omega)]
      omega
  · -- mismatch, signed difference positive, unsigned confirmation: EMPTY
    exact ⟨⟨hlen, hcap, hcap65, hsx, hrx, hsp, hrp, hspos, hrpos⟩,
      by simp [res_pop_inc]⟩
  · -- mismatch, fall-through: EMPTY
    exact ⟨⟨hlen, hcap, hcap65, hsx, hrx, hsp, hrp, hspos, hrpos⟩,
      by simp [res_pop_inc]⟩
  · -- mismatch, signed difference non-positive: EMPTY
    exact ⟨⟨hlen, hcap, hcap65, hsx, hrx, hsp, hrp, hspos, hrpos⟩,
      by simp [res_pop_inc]⟩

/-- `try_peek` preserves the invariant and never changes a slot lap. -/
theorem try_peek_inv [Inhabited α] (q : queue α) (hInv : Inv q) :
    Inv (try_peek q).2 ∧ oddCount (try_peek q).2 = oddCount q := by
  obtain ⟨hlen, hcap, hcap65, hsx, hrx, hsp, hrp, hspos, hrpos⟩ := hInv
  simp only [try_peek, select_4_read, shiftR16, shiftL16]
  split_ifs with hEq hPos
  · refine ⟨⟨hlen, hcap, hcap65, hsx, ?_, hsp, ?_, hspos, ?_⟩, rfl⟩
    · dsimp only
      omega
    · dsimp only
      omega
    · dsimp only
      omega
  · refine ⟨⟨hlen, hcap, hcap65, hsx, ?_, hsp, ?_, hspos, ?_⟩, rfl⟩
    · dsimp only
      omega
    · dsimp only
      omega
    · dsimp only
      omega
  · exact ⟨⟨hlen, hcap, hcap65, hsx, hrx, hsp, hrp, hspos, hrpos⟩, rfl⟩
  · exact ⟨⟨hlen, hcap, hcap65, hsx, hrx, hsp, hrp, hspos, hrpos⟩, rfl⟩
  · exact ⟨⟨hlen, hcap, hcap65, hsx, hrx, hsp, hrp, hspos, hrpos⟩, rfl⟩

/-- `close` preserves bits 0..30 of the send cursor word. -/
theorem lor_kMask32_mod_65536 (x : Nat) :
    (x ||| kMask32) % 65536 = x % 65536 := by
  rw [show (65536 : Nat) = 2 ^ 16 by norm_num]
  apply Nat.eq_of_testBit_eq
  intro i
  rw [Nat.testBit_mod_two_pow, Nat.testBit_mod_two_pow]
  by_cases hi : i < 16
  · simp only [hi, decide_True, Bool.true_and]
    rw [kMask32_eq, Nat.testBit_lor, Nat.testBit_two_pow_of_ne (by omega)]
    simp
  · simp [hi]

/-- `close` preserves the parity of the 16-bit send lap. -/
theorem lor_kMask32_parity (x : Nat) :
    (x ||| kMask32) / 65536 % 2 = x / 65536 % 2 := by
  have h16 : (x ||| kMask32).testBit 16 = x.testBit 16 := by
    rw [kMask32_eq, Nat.testBit_lor, Nat.testBit_two_pow_of_ne (by omega)]
    simp
  rw [Nat.testBit_to_div_mod, Nat.testBit_to_div_mod] at h16
  rw [show (2 : Nat) ^ 16 = 65536 by norm_num] at h16
  have h2 := decide_eq_decide.mp h16
  by_cases hx : x / 65536 % 2 = 1
  · rw [hx, h2.mpr hx]
  · have hl : ¬((x ||| kMask32) / 65536 % 2 = 1) := fun hh => hx (h2.mp hh)
    omega

/-- `close` keeps the send cursor inside 32 bits. -/
theorem lor_kMask32_lt (x : Nat) (hx : x < 4294967296) :
    x ||| kMask32 < 4294967296 := by
  have h1 : x < 2 ^ 32 := by norm_num at hx ⊢; omega
  have h2 : kMask32 < 2 ^ 32 := by rw [kMask32_eq]; norm_num
  have := Nat.or_lt_two_pow h1 h2
  norm_num at this ⊢
  omega

/-- `close` preserves the invariant and touches no slot lap. -/
theorem close_inv (q : queue α) (hInv : Inv q) :
    Inv (close q) ∧ oddCount (close q) = oddCount q := by
  obtain ⟨hlen, hcap, hcap65, hsx, hrx, hsp, hrp, hspos, hrpos⟩ := hInv
  refine ⟨⟨hlen, hcap, hcap65, ?_, hrx, ?_, hrp, ?_, hrpos⟩, rfl⟩
  · exact lor_kMask32_lt _ hsx
  · rw [close]
    dsimp only
    rw [lor_kMask32_parity]
    exact hsp
  · rw [close]
    dsimp only
    rw [lor_kMask32_mod_65536]
    exact hspos

/-- One execution step preserves the invariant, and the odd-lap count books
exactly the successful pushes and pops. -/
theorem step_inv [Inhabited α] (q : queue α) (op : Op α) (r : Res α)
    (q₁ : queue α) (hInv : Inv q) (h : step q op = some (r, q₁)) :
    Inv q₁ ∧ oddCount q + res_push_inc r = oddCount q₁ + res_pop_inc r := by
  cases op with
  | push v =>
    rw [step] at h
    rcases hp : try_push v q with _ | ⟨st, q₂⟩
    · rw [hp] at h
      cases h
    · rw [hp] at h
      dsimp only at h
      cases h
      obtain ⟨hI, hc⟩ := try_push_inv q v st q₁ hInv hp
      refine ⟨hI, ?_⟩
      have hz : res_pop_inc (Res.pushR st : Res α) = 0 := by
        cases st <;> rfl
      rw [hz]
      omega
  | pop =>
    rw [step] at h
    cases h
    obtain ⟨hI, hc⟩ := try_pop_inv q hInv
    refine ⟨hI, ?_⟩
    have hz : res_push_inc (Res.popR (try_pop q).1 (try_pop q).2.1) = 0 := by
      rcases hst : (try_pop q).2.1 <;> rfl
    rw [hz]
    omega
  | peek =>
    rw [step] at h
    cases h
    obtain ⟨hI, hc⟩ := try_peek_inv q hInv
    exact ⟨hI, by rw [hc]; rfl⟩
  | close =>
    rw [step] at h
    cases h
    obtain ⟨hI, hc⟩ := close_inv q hInv
    exact ⟨hI, by rw [hc]; rfl⟩

/-- Executions preserve the invariant, and the odd-lap count of the final
state equals successful pushes minus successful pops. -/
theorem run_inv [Inhabited α] (q : queue α) (ops : List (Op α))
    (res : List (Res α)) (q' : queue α) (hInv : Inv q)
    (h : run q ops = some (res, q')) :
    Inv q' ∧ oddCount q + pushSucc res = oddCount q' + popSucc res := by
  induction ops generalizing q res with
  | nil =>
    rw [run] at h
    cases h
    exact ⟨hInv, by simp [pushSucc, popSucc]⟩
  | cons op ops ih =>
    obtain ⟨r, q₁, rs, hstep, hrun, hres⟩ := run_cons q op ops res q' h
    obtain ⟨hI1, hc1⟩ := step_inv q op r q₁ hInv hstep
    obtain ⟨hI2, hc2⟩ := ih q₁ rs hI1 hrun
    subst hres
    rw [pushSucc_cons, popSucc_cons]
    exact ⟨hI2, by omega⟩

/-- No operation changes the stored capacity. -/
theorem step_cap [Inhabited α] (q : queue α) (op : Op α) (r : Res α)
    (q₁ : queue α) (h : step q op = some (r, q₁)) : q₁.cap_ = q.cap_ := by
  cases op with
  | push v =>
    rw [step] at h
    rcases hp : try_push v q with _ | ⟨st, q₂⟩
    · rw [hp] at h
      cases h
    · rw [hp] at h
      dsimp only at h
      cases h
      rcases select_4_write_cases q with ⟨pos, el, x, hsel⟩ | hsel | hsel | hsel <;>
        rw [try_push, hsel] at hp <;> dsimp only at hp <;> cases hp <;> rfl
  | pop =>
    rw [step] at h
    cases h
    rcases select_4_read_cases q with ⟨pos, el, x, hsel⟩ | hsel <;>
      rw [try_pop, hsel]
  | peek =>
    rw [step] at h
    cases h
    rcases select_4_read_cases q with ⟨pos, el, x, hsel⟩ | hsel <;>
      rw [try_peek, hsel]
  | close =>
    rw [step] at h
    cases h
    rfl

/-- Executions never change the stored capacity. -/
theorem run_cap [Inhabited α] (q : queue α) (ops : List (Op α))
    (res : List (Res α)) (q' : queue α) (h : run q ops = some (res, q')) :
    q'.cap_ = q.cap_ := by
  induction ops generalizing q res with
  | nil =>
    rw [run] at h
    cases h
    rfl
  | cons op ops ih =>
    obtain ⟨r, q₁, rs, hstep, hrun, -⟩ := run_cons q op ops res q' h
    rw [ih q₁ rs hrun, step_cap q op r q₁ hstep]

/-- The fresh queue satisfies the invariant for any positive 16-bit
capacity. -/
theorem Inv_fresh (α : Type) [Inhabited α] (cap : Nat) (h1 : 0 < cap)
    (h2 : cap ≤ 65535) : Inv (fresh α cap) := by
  refine ⟨?_, h1, h2, ?_, ?_, ?_, ?_, ?_, ?_⟩ <;>
    simp [fresh] <;> first | decide | exact h1

/-- A fresh queue has no readable slot. -/
theorem oddCount_fresh (α : Type) [Inhabited α] (cap : Nat) :
    oddCount (fresh α cap) = 0 := by
  rw [oddCount, fresh]
  dsimp only
  rw [List.countP_eq_zero]
  intro a ha
  rw [List.eq_of_mem_replicate ha]
  simp

/-- A successful execution of `l1 ++ l2` contains a successful execution of
`l1`. -/
theorem run_append_some [Inhabited α] (q : queue α) (l1 l2 : List (Op α))
    (res : List (Res α)) (q' : queue α)
    (h : run q (l1 ++ l2) = some (res, q')) :
    ∃ res1 q1, run q l1 = some (res1, q1) := by
  induction l1 generalizing q res with
  | nil => exact ⟨[], q, rfl⟩
  | cons op l1 ih =>
    rw [List.cons_append] at h
    obtain ⟨r, q₁, rs, hstep, hrun, -⟩ := run_cons q op (l1 ++ l2) res q' h
    obtain ⟨res1, q1, h1⟩ := ih q₁ rs hrun
    refine ⟨r :: res1, q1, ?_⟩
    rw [run, hstep]
    dsimp only
    rw [h1]

/-- C6: bounded occupancy.  Along every operation sequence executed on a
queue freshly constructed with capacity `cap`, at every point (i.e. after
every prefix `l1`) the number of pushes that returned `SUCCESS` exceeds the
number of pops that returned `SUCCESS` by at least 0 and at most `cap`. -/
theorem c6_bounded_occupancy [Inhabited α] (cap : Nat) (h1 : 0 < cap)
    (h2 : cap ≤ 65535) (l1 l2 : List (Op α)) (res : List (Res α))
    (q' : queue α) (h : run (fresh α cap) (l1 ++ l2) = some (res, q')) :
    ∃ res1 q1, run (fresh α cap) l1 = some (res1, q1) ∧
      popSucc res1 ≤ pushSucc res1 ∧ pushSucc res1 ≤ popSucc res1 + cap := by
  obtain ⟨res1, q1, hrun1⟩ := run_append_some (fresh α cap) l1 l2 res q' h
  obtain ⟨hI, hc⟩ := run_inv (fresh α cap) l1 res1 q1
    (Inv_fresh α cap h1 h2) hrun1
  rw [oddCount_fresh] at hc
  have hbound : oddCount q1 ≤ cap := by
    obtain ⟨hlen, -⟩ := hI
    have hle : q1.buf_.countP (fun e => e.lap % 2 == 1) ≤ q1.buf_.length := by
      apply List.countP_le_length
    have hc1 : q1.cap_ = cap := run_cap (fresh α cap) l1 res1 q1 hrun1
    rw [oddCount]
    omega
  exact ⟨res1, q1, hrun1, by omega, by omega⟩

/-- Executing `op :: ops` after a known head step. -/
theorem run_cons_eq [Inhabited α] (q : queue α) (op : Op α)
    (ops : List (Op α)) (r : Res α) (q₁ : queue α)
    (hstep : step q op = some (r, q₁)) :
    run q (op :: ops) = (run q₁ ops).map (fun p => (r :: p.1, p.2)) := by
  rw [run, hstep]
  dsimp only
  rcases run q₁ ops with _ | ⟨rs, q₂⟩ <;> rfl

/-- Executing `l1 ++ l2` after a known execution of `l1`. -/
theorem run_append_eq [Inhabited α] (q : queue α) (l1 l2 : List (Op α))
    (res1 : List (Res α)) (q1 : queue α) (h : run q l1 = some (res1, q1)) :
    run q (l1 ++ l2) = (run q1 l2).map (fun p => (res1 ++ p.1, p.2)) := by
  have hnil : ∀ qq : queue α, run qq ([] ++ l2) =
      Option.map (fun p : List (Res α) × queue α =>
        (([] : List (Res α)) ++ p.1, p.2)) (run qq l2) := by
    intro qq
    rw [List.nil_append]
    rcases run qq l2 with _ | ⟨rs, q₂⟩ <;> rfl
  induction l1 generalizing q res1 with
  | nil =>
    rw [run] at h
    cases h
    exact hnil _
  | cons op l1 ih =>
    rw [List.cons_append]
    obtain ⟨r, q₁, rs, hstep, hrun, hres⟩ := run_cons q op l1 res1 q1 h
    rw [run_cons_eq _ _ _ _ _ hstep, ih q₁ rs hrun, hres]
    rcases run q1 l2 with _ | ⟨rs2, q₂⟩ <;> rfl

/-- First push of a cycle on the canonical capacity-2 state. -/
theorem cyc2_push_a (m : Nat) (h : m < 32768) :
    try_push 0 (canon2 m) = some (State.SUCCESS,
      ⟨2, [⟨m + 1, 0⟩, ⟨m, 0⟩], 1, m * 65536 + 1, (m + 1) * 65536⟩) := by
  have e1 : m * 65536 % 65536 = 0 := by omega
  have e2 : m * 65536 / 65536 % 65536 = m := by omega
  have e3 : ¬(32768 ≤ m) := by omega
  have e5 : (m * 65536 + 1) % 4294967296 = m * 65536 + 1 := by omega
  have e6 : (m + 1) % 65536 = m + 1 := by omega
  simp only [try_push, select_4_write, canon2, shiftR16, shiftL16, kMask16_eq,
    e1, e2, e5, e6, List.getD_cons_zero, List.set_cons_zero]
  rw [if_neg e3]
  simp
  all_goals omega

/-- Second push of a cycle on the canonical capacity-2 state. -/
theorem cyc2_push_b (m : Nat) (h : m < 32768) :
    try_push 0 (⟨2, [⟨m + 1, 0⟩, ⟨m, 0⟩], 1, m * 65536 + 1,
        (m + 1) * 65536⟩ : queue Nat) = some (State.SUCCESS,
      ⟨2, [⟨m + 1, 0⟩, ⟨m + 1, 0⟩], 2, (m + 2) * 65536, (m + 1) * 65536⟩) := by
  have e1 : (m * 65536 + 1) % 65536 = 0 + 1 := by omega
  have e2 : (m * 65536 + 1) / 65536 % 65536 = m := by omega
  have e3 : ¬(32768 ≤ m) := by omega
  have e5 : (m + 2) * 65536 % 4294967296 = (m + 2) * 65536 := by omega
  have e6 : (m + 1) % 65536 = m + 1 := by omega
  simp only [try_push, select_4_write, shiftR16, shiftL16, kMask16_eq,
    e1, e2, e5, e6, List.getD_cons_succ, List.getD_cons_zero,
    List.set_cons_succ, List.set_cons_zero]
  rw [if_neg e3]
  simp
  all_goals omega

/-- First pop of a cycle on the canonical capacity-2 state. -/
theorem cyc2_pop_a (m : Nat) (h : m < 32768) :
    try_pop (⟨2, [⟨m + 1, 0⟩, ⟨m + 1, 0⟩], 2, (m + 2) * 65536,
        (m + 1) * 65536⟩ : queue Nat) = (0, State.SUCCESS,
      ⟨2, [⟨m + 2, 0⟩, ⟨m + 1, 0⟩], 1, (m + 2) * 65536,
        (m + 1) * 65536 + 1⟩) := by
  have e1 : (m + 1) * 65536 % 65536 = 0 := by omega
  have e2 : (m + 1) * 65536 / 65536 % 65536 = m + 1 := by omega
  have e5 : ((m + 1) * 65536 + 1) % 4294967296 = (m + 1) * 65536 + 1 := by
    omega
  have e6 : (m + 1 + 1) % 65536 = m + 2 := by omega
  have e7 : (2 + 4294967295) % 4294967296 = 1 := by omega
  simp only [try_pop, select_4_read, shiftR16, shiftL16, e1, e2, e5, e6, e7,
    List.getD_cons_zero, List.set_cons_zero]
  rw [if_pos trivial, if_pos (by omega : 0 + 1 < 2)]
  dsimp only
  simp only [List.getD_cons_zero, List.set_cons_zero, e6, e7]

/-- Second pop of a cycle on the canonical capacity-2 state: the cursors
wrap and the state is the canonical one two laps further. -/
theorem cyc2_pop_b (m : Nat) (h : m < 32768) :
    try_pop (⟨2, [⟨m + 2, 0⟩, ⟨m + 1, 0⟩], 1, (m + 2) * 65536,
        (m + 1) * 65536 + 1⟩ : queue Nat) =
      (0, State.SUCCESS, canon2 (m + 2)) := by
  have e1 : ((m + 1) * 65536 + 1) % 65536 = 0 + 1 := by omega
  have e2 : ((m + 1) * 65536 + 1) / 65536 % 65536 = m + 1 := by omega
  have e5 : (m + 1 + 2) * 65536 % 4294967296 = (m + 2 + 1) * 65536 := by omega
  have e6 : (m + 1 + 1) % 65536 = m + 2 := by omega
  have e7 : (1 + 4294967295) % 4294967296 = 0 := by omega
  simp only [try_pop, select_4_read, shiftR16, shiftL16, e1, e2, e5, e6, e7,
    List.getD_cons_succ, List.getD_cons_zero, List.set_cons_succ,
    List.set_cons_zero]
  rw [canon2]
  rw [if_pos trivial, if_neg (by omega : ¬(0 + 1 + 1 < 2))]
  dsimp only
  simp only [List.getD_cons_succ, List.getD_cons_zero, List.set_cons_succ,
    List.set_cons_zero, e6, e7]

/-- Driving the canonical capacity-2 state through `k` full cycles: as long
as the send lap stays at or below `2^15` every operation succeeds and the
state stays canonical, two laps further per cycle. -/
theorem run_cyc2N (k : Nat) : ∀ m, m + 2 * k ≤ 32768 →
    run (canon2 m) (cyc2N k) = some (res2N k, canon2 (m + 2 * k)) := by
  induction k with
  | zero =>
    intro m hm
    simp [cyc2N, res2N, run]
  | succ k ih =>
    intro m hm
    have hm' : m < 32768 := by omega
    rw [cyc2N]
    rw [run_cons_eq _ _ _ _ _ (by rw [step, cyc2_push_a m hm'])]
    rw [run_cons_eq _ _ _ _ _ (by rw [step, cyc2_push_b m hm'])]
    rw [run_cons_eq _ _ _ _ _ (by rw [step, cyc2_pop_a m hm'])]
    rw [run_cons_eq _ _ _ _ _ (by rw [step, cyc2_pop_b m hm'])]
    rw [ih (m + 2) (by omega)]
    rw [res2N]
    have : m + 2 + 2 * k = m + 2 * (k + 1) := by omega
    rw [this]
    rfl

/-- The push of a cycle on the canonical capacity-1 state. -/
theorem cyc1_push (m : Nat) (h : m < 32768) :
    try_push 0 (canon1 m) = some (State.SUCCESS,
      ⟨1, [⟨m + 1, 0⟩], 1, (m + 2) * 65536, (m + 1) * 65536⟩) := by
  have e1 : m * 65536 % 65536 = 0 := by omega
  have e2 : m * 65536 / 65536 % 65536 = m := by omega
  have e3 : ¬(32768 ≤ m) := by omega
  have e5 : (m + 2) * 65536 % 4294967296 = (m + 2) * 65536 := by omega
  have e6 : (m + 1) % 65536 = m + 1 := by omega
  simp only [try_push, select_4_write, canon1, shiftR16, shiftL16, kMask16_eq,
    e1, e2, e5, e6, List.getD_cons_zero, List.set_cons_zero]
  rw [if_neg e3]
  simp
  all_goals omega

/-- The pop of a cycle on the canonical capacity-1 state. -/
theorem cyc1_pop (m : Nat) (h : m < 32768) :
    try_pop (⟨1, [⟨m + 1, 0⟩], 1, (m + 2) * 65536,
        (m + 1) * 65536⟩ : queue Nat) =
      (0, State.SUCCESS, canon1 (m + 2)) := by
  have e1 : (m + 1) * 65536 % 65536 = 0 := by omega
  have e2 : (m + 1) * 65536 / 65536 % 65536 = m + 1 := by omega
  have e5 : (m + 1 + 2) * 65536 % 4294967296 = (m + 2 + 1) * 65536 := by omega
  have e6 : (m + 1 + 1) % 65536 = m + 2 := by omega
  have e7 : (1 + 4294967295) % 4294967296 = 0 := by omega
  simp only [try_pop, select_4_read, shiftR16, shiftL16, e1, e2, e5, e6, e7,
    List.getD_cons_zero, List.set_cons_zero]
  rw [canon1]
  rw [if_pos trivial, if_neg (by omega : ¬(0 + 1 < 1))]
  dsimp only
  simp only [List.getD_cons_zero, List.set_cons_zero, e6, e7]

/-- Driving the canonical capacity-1 state through `k` push/pop cycles. -/
theorem run_cyc1N (k : Nat) : ∀ m, m + 2 * k ≤ 32768 →
    run (canon1 m) (cyc1N k) = some (res1N k, canon1 (m + 2 * k)) := by
  induction k with
  | zero =>
    intro m hm
    simp [cyc1N, res1N, run]
  | succ k ih =>
    intro m hm
    have hm' : m < 32768 := by omega
    rw [cyc1N]
    rw [run_cons_eq _ _ _ _ _ (by rw [step, cyc1_push m hm'])]
    rw [run_cons_eq _ _ _ _ _ (by rw [step, cyc1_pop m hm'])]
    rw [ih (m + 2) (by omega)]
    rw [res1N]
    have : m + 2 + 2 * k = m + 2 * (k + 1) := by omega
    rw [this]
    rfl

/-- `cyc2N` contains no close operation. -/
theorem close_not_mem_cyc2N (k : Nat) : Op.close ∉ cyc2N k := by
  induction k with
  | zero => simp [cyc2N]
  | succ k ih => simp [cyc2N, ih]

/-- C5: refuted on the code — with `C = 2` and `close()` never called,
after 16384 push-push-pop-pop cycles the send lap reaches `2^15 = kMask16`
and the very next `try_push` returns `CLOSED`: the closed-flag check
`lap >= kMask16` cannot tell a naturally grown lap from the closed flag, so
the signed 16-bit comparison never gets to classify anything near
wraparound. -/
theorem c5_lap_overflow :
    run (fresh Nat 2) (cyc2N 16384 ++ [Op.push 0]) =
      some (res2N 16384 ++ [Res.pushR State.CLOSED], canon2 32768) ∧
    Op.close ∉ cyc2N 16384 ++ [Op.push 0] := by
  constructor
  · have hf : fresh Nat 2 = canon2 0 := by decide
    have h1 : run (canon2 0) (cyc2N 16384) =
        some (res2N 16384, canon2 32768) := by
      have := run_cyc2N 16384 0 (by norm_num)
      simpa using this
    have h2 : run (canon2 32768) [Op.push 0] =
        some ([Res.pushR State.CLOSED], canon2 32768) := by decide
    rw [hf, run_append_eq _ _ _ _ _ h1, h2]
    rfl
  · intro hmem
    rcases List.mem_append.mp hmem with hm | hm
    · exact close_not_mem_cyc2N 16384 hm
    · simp at hm

/-- C7: refuted on the code — after `C` successful pushes and `C` pops on a
fresh capacity-1 queue the state is `canon1 2` (laps advanced by 2), but it
is not functionally equivalent to the fresh state: the suffix of 16383
push/pop cycles followed by one more push answers `SUCCESS` to the last
push on the fresh queue and `CLOSED` on `canon1 2`, because the offset
state reaches the `lap >= kMask16` check two laps earlier. -/
theorem c7_not_equivalent :
    run (fresh Nat 1) [Op.push 0, Op.pop] =
      some ([Res.pushR State.SUCCESS, Res.popR 0 State.SUCCESS], canon1 2) ∧
    (run (canon1 2) (cyc1N 16383 ++ [Op.push 0])).map Prod.fst ≠
      (run (fresh Nat 1) (cyc1N 16383 ++ [Op.push 0])).map Prod.fst := by
  constructor
  · decide
  · have hf : fresh Nat 1 = canon1 0 := by decide
    have h1 : run (canon1 2) (cyc1N 16383) =
        some (res1N 16383, canon1 32768) := by
      have := run_cyc1N 16383 2 (by norm_num)
      simpa using this
    have h0 : run (canon1 0) (cyc1N 16383) =
        some (res1N 16383, canon1 32766) := by
      have := run_cyc1N 16383 0 (by norm_num)
      simpa using this
    have h2 : run (canon1 32768) [Op.push 0] =
        some ([Res.pushR State.CLOSED], canon1 32768) := by decide
    have h3 : run (canon1 32766) [Op.push 0] =
        some ([Res.pushR State.SUCCESS],
          (⟨1, [⟨32767, 0⟩], 1, 2147483648, 2147418112⟩ : queue Nat)) := by
      decide
    rw [hf, run_append_eq _ _ _ _ _ h1, run_append_eq _ _ _ _ _ h0, h2, h3]
    intro heq
    simp at heq

/-- Witness for C6: the prefix push-1 of the sequence push-1-then-pop on a
fresh capacity-2 queue satisfies the occupancy bounds. -/
theorem c6_bounded_occupancy_wit :
    ∃ res1 q1, run (fresh Nat 2) [Op.push 1] = some (res1, q1) ∧
      popSucc res1 ≤ pushSucc res1 ∧ pushSucc res1 ≤ popSucc res1 + 2 :=
  c6_bounded_occupancy 2 (by decide) (by decide) [Op.push 1] [Op.pop]
    [Res.pushR State.SUCCESS, Res.popR 1 State.SUCCESS]
    (⟨2, [⟨2, 1⟩, ⟨0, 0⟩], 0, 1, 65537⟩ : queue Nat) (by decide)

end T2
